import Mathlib

/-!
Verification of the dependency-resolution / object-construction registry in
`src/patterns/creational/builder.py` (classes `Context` and `Builder`).

The embedding is shallow: Python types become `Ty` (a type identifier plus the
ids of its supertypes, standing for the class and its MRO), Python objects
become `Obj` (an identity, a runtime type and the result of `bool(obj)`),
callables become `Fn` (a parameter descriptor list, the declared return
annotation and the call behaviour), and both dictionaries of the builder
become association lists updated exactly the way a Python `dict` assignment
updates.  Exceptions become `Except Err`.  The mutual recursion
`Builder.resolve` / `Context.resolve` / `Context._create` is modelled with a
fuel parameter; `Err.outOfFuel` marks executions in which the Python original
would not have returned (unbounded recursion).  Each `Context._create`
invocation of the underlying factory or constructor is recorded in an
instrumentation log so that "the factory executed exactly once" is statable.
-/

set_option autoImplicit false

namespace Patterns

/-- A Python class: its identity and the ids of all classes it is a subclass
of (itself included), standing for the method resolution order. -/
structure Ty where
  id : Nat
  supers : List Nat
deriving DecidableEq

/-- A Python object: object identity (`id(obj)`), runtime class, and the
value of `bool(obj)`. -/
structure Obj where
  oid : Nat
  ty : Ty
  truthy : Bool
deriving DecidableEq

/-- Embeds `issubclass(a, b)` of the source language. -/
def issubclass (a b : Ty) : Bool :=
  b.id ∈ a.supers

/-- Embeds `isinstance(o, t)` of the source language. -/
def isinstance (o : Obj) (t : Ty) : Bool :=
  issubclass o.ty t

/-- Keyword-argument dictionaries (`dict[str, Any]`), as association lists. -/
abbrev Kw := List (String × Obj)

/-- Dictionary lookup (`d.get(k)` / `k in d`): first entry with this key. -/
def lookupAssoc {α β : Type} [DecidableEq α] : List (α × β) → α → Option β
  | [], _ => none
  | (k', v) :: rest, k => if k' = k then some v else lookupAssoc rest k

/-- Dictionary assignment (`d[k] = v`): replace the binding if the key is
present, append otherwise. -/
def setAssoc {α β : Type} [DecidableEq α] : List (α × β) → α → β → List (α × β)
  | [], k, v => [(k, v)]
  | (k', v') :: rest, k, v =>
    if k' = k then (k, v) :: rest else (k', v') :: setAssoc rest k v

/-- One declared parameter of a factory or constructor signature: its name,
its declared type annotation, and its declared default value if any
(`none` is `inspect.Parameter.empty`). -/
structure Param where
  name : String
  annotation : Ty
  default : Option Obj
deriving DecidableEq

/-- A Python callable: its `inspect.signature` parameter list, its declared
return annotation (`none` is a missing annotation), and its call behaviour. -/
structure Fn where
  sig : List Param
  retAnn : Option Ty
  run : Kw → Obj

/-- The `instance` slot of a `Context`: `None`, the `DelayedCreation`
marker, or a concrete object.  (`Context._validate_instance` normalises an
instance of `DelayedCreation` to the class itself, so one constructor
covers both spellings of the marker.) -/
inductive InstanceSlot where
  | none
  | delayed
  | conc (o : Obj)
deriving DecidableEq

/-- The registration `Context` of `builder.py`: field for field the pydantic
model (`typename`, `aliases`, `kwargs`, `instance`, `factory`); `instance`
is `inst` because `instance` is reserved in Lean. -/
structure Context where
  typename : Ty
  aliases : List Ty
  kwargs : Kw
  inst : InstanceSlot
  factory : Option Fn

/-- The errors the source raises, plus `outOfFuel`, which marks executions on
which the Python original would never return.  The first five are the
registration-time validation errors (`ValueError` raised inside the pydantic
validator), the next three are `RegistrationError`s, and `resolution` is
`ResolutionError` carrying the originally requested type. -/
inductive Err where
  | instanceTypeMismatch (o : Obj) (t : Ty)
  | instanceWithKwargs
  | instanceWithFactory
  | aliasNotSuper (t a : Ty)
  | factoryReturnMismatch (r : Option Ty) (t : Ty)
  | alreadyRegistered (t : Ty)
  | alreadyAlias (t : Ty)
  | aliasCollision (a : Ty)
  | resolution (t : Ty)
  | outOfFuel
deriving DecidableEq

/-- The validation errors of the spec's taxonomy. -/
def Err.isValidationErr : Err → Bool
  | .instanceTypeMismatch _ _ => true
  | .instanceWithKwargs => true
  | .instanceWithFactory => true
  | .aliasNotSuper _ _ => true
  | .factoryReturnMismatch _ _ => true
  | _ => false

/-- The `RegistrationError`s of the source. -/
def Err.isRegErr : Err → Bool
  | .alreadyRegistered _ => true
  | .alreadyAlias _ => true
  | .aliasCollision _ => true
  | _ => false

/-- Embeds `Context._validate_instance`: the checks run only when the slot holds a
truthy value other than the `DelayedCreation` marker (`if self.instance and
self.instance is not DelayedCreation`). -/
def validate_instance (c : Context) : Except Err Unit :=
  match c.inst with
  | .conc o =>
    if o.truthy then
      if ¬ isinstance o c.typename then .error (.instanceTypeMismatch o c.typename)
      else if c.kwargs ≠ [] then .error .instanceWithKwargs
      else if c.factory.isSome then .error .instanceWithFactory
      else .ok ()
    else .ok ()
  | _ => .ok ()

/-- Embeds `Context._validate_aliases`: every alias must be a superclass of
`typename`; the loop raises at the first violation. -/
def validate_aliases (c : Context) : Except Err Unit :=
  match c.aliases.find? (fun a => ¬ issubclass c.typename a) with
  | some a => .error (.aliasNotSuper c.typename a)
  | none => .ok ()

/-- Embeds `Context._validate_factory`: a supplied factory's declared return
annotation must equal `typename`. -/
def validate_factory (c : Context) : Except Err Unit :=
  match c.factory with
  | some f =>
    if f.retAnn ≠ some c.typename then .error (.factoryReturnMismatch f.retAnn c.typename)
    else .ok ()
  | none => .ok ()

/-- Constructing a `Context` inside `Builder.register`: the alias set is
`{alias} if alias else set()` and the pydantic `model_validator` runs the
three validators in source order. -/
def mkContext (cls : Ty) (al : Option Ty) (inst : InstanceSlot) (fac : Option Fn)
    (kw : Kw) : Except Err Context :=
  let c : Context :=
    { typename := cls, aliases := al.toList, kwargs := kw, inst := inst, factory := fac }
  match validate_instance c with
  | .error e => .error e
  | .ok _ =>
    match validate_aliases c with
    | .error e => .error e
    | .ok _ =>
      match validate_factory c with
      | .error e => .error e
      | .ok _ => .ok c

/-- The `Builder` state: the two dictionaries `_registrations` and `_aliases`,
plus the instrumentation log of factory/constructor invocations (one entry,
the registration key, per `Context._create` call that reaches the
invocation). -/
structure BState where
  registrations : List (Ty × Context)
  aliases : List (Ty × Ty)
  log : List Ty

/-- A freshly constructed `Builder`. -/
def emptyBuilder : BState := { registrations := [], aliases := [], log := [] }

/-- Embeds `Builder._validate`: registry uniqueness checks, in source order. -/
def bvalidate (s : BState) (c : Context) : Except Err Unit :=
  if (lookupAssoc s.registrations c.typename).isSome then
    .error (.alreadyRegistered c.typename)
  else if (lookupAssoc s.aliases c.typename).isSome then
    .error (.alreadyAlias c.typename)
  else
    match c.aliases.find?
        (fun a => (lookupAssoc s.aliases a).isSome || (lookupAssoc s.registrations a).isSome) with
    | some a => .error (.aliasCollision a)
    | none => .ok ()

/-- Embeds `Builder._register`: commit the context and its alias entries. -/
def bregister (s : BState) (c : Context) : BState :=
  { s with
    registrations := setAssoc s.registrations c.typename c
    aliases := c.aliases.foldl (fun m a => setAssoc m a c.typename) s.aliases }

/-- Embeds `Builder.register`: build and validate the candidate context, check the
registry invariants, and only then commit.  The state is returned alongside
the outcome so that "no partial state on failure" is statable. -/
def register (s : BState) (cls : Ty) (al : Option Ty) (inst : InstanceSlot)
    (fac : Option Fn) (kw : Kw) : Except Err Unit × BState :=
  match mkContext cls al inst fac kw with
  | .error e => (.error e, s)
  | .ok c =>
    match bvalidate s c with
    | .error e => (.error e, s)
    | .ok _ => (.ok (), bregister s c)

/-- Embeds `Builder.__contains__`. -/
def bcontains (s : BState) (cls : Ty) : Bool :=
  (lookupAssoc s.registrations cls).isSome || (lookupAssoc s.aliases cls).isSome

/-- Embeds `Builder._resolve_alias`, with fuel counting lookups.  At fuel 0 a key
still present in the alias map means the source would keep recursing, which
is reported as `none` (non-termination); with fuel `|aliases|` this function
agrees with the source wherever the source terminates, because a terminating
chain passes each alias key at most once. -/
def resolveAlias (al : List (Ty × Ty)) : Nat → Ty → Option Ty
  | 0, t =>
    match lookupAssoc al t with
    | some _ => none
    | Option.none => some t
  | n + 1, t =>
    match lookupAssoc al t with
    | some v => resolveAlias al n v
    | Option.none => some t

/-- The alias-resolution step of `Builder.resolve`: `some r` when
`_resolve_alias` terminates with root `r`, `none` when it diverges. -/
def aliasRootF (s : BState) (t : Ty) : Option Ty :=
  resolveAlias s.aliases s.aliases.length t

/-- The parameter names `Context._create` strips from the signature
(`excluded_params = ["self", "args", "kwargs"]`). -/
def excludedNames : List String := ["self", "args", "kwargs"]

/-- The trimmed parameter list `Context._create` iterates over: the signature
of the factory if present, else of the type's own initializer, without the
parameters named `self`, `args` or `kwargs`. -/
def trimmedSig (ctorSig : Ty → Fn) (c : Context) : List Param :=
  (match c.factory with
   | some f => f.sig
   | none => (ctorSig c.typename).sig).filter (fun p => ¬ p.name ∈ excludedNames)

/-- The class environment: the initializer (signature and call behaviour) of
every Python type, i.e. what `self.typename.__init__` / `self.typename(...)`
denote. -/
structure World where
  ctor : Ty → Fn

/-- The argument-resolution loop of `Context._create`, parameterised over
`recur`, the `builder.resolve` callback used for unmet parameters.
`kw` are the per-call arguments, `regKw` the registration-time `self.kwargs`,
`acc` the accumulator initialised with `self.kwargs.copy()`. -/
def resolveLoopAux (recur : BState → Ty → Kw → Except Err (Obj × BState)) :
    List Param → BState → Kw → Kw → Kw → Except Err (Kw × BState)
  | [], s, _, _, acc => .ok (acc, s)
  | p :: ps, s, kw, regKw, acc =>
    match lookupAssoc kw p.name with
    | some v => resolveLoopAux recur ps s kw regKw (setAssoc acc p.name v)
    | none =>
      match lookupAssoc regKw p.name with
      | some v => resolveLoopAux recur ps s kw regKw (setAssoc acc p.name v)
      | none =>
        match p.default with
        | some d => resolveLoopAux recur ps s kw regKw (setAssoc acc p.name d)
        | none =>
          match recur s p.annotation [] with
          | .error e => .error e
          | .ok (v, s') => resolveLoopAux recur ps s' kw regKw (setAssoc acc p.name v)

/-- Embeds `Context._create` for the context registered at `k`, parameterised over
the `builder.resolve` callback: trim the signature, resolve every parameter,
then invoke the factory if present, else the type itself.  The invocation is
recorded in the log. -/
def createAux (W : World) (recur : BState → Ty → Kw → Except Err (Obj × BState))
    (s : BState) (k : Ty) (kw : Kw) : Except Err (Obj × BState) :=
  match lookupAssoc s.registrations k with
  | none => .error (.resolution k)
  | some c =>
    match resolveLoopAux recur (trimmedSig W.ctor c) s kw c.kwargs c.kwargs with
    | .error e => .error e
    | .ok (rkw, s1) =>
      let s2 : BState := { s1 with log := s1.log ++ [k] }
      match c.factory with
      | some f => .ok (f.run rkw, s2)
      | none => .ok ((W.ctor c.typename).run rkw, s2)

/-- Overwrite the `instance` slot of the context stored under `k`
(the assignment `self.instance = ...` seen through the registration map). -/
def setSlotList (m : List (Ty × Context)) (k : Ty) (v : InstanceSlot) : List (Ty × Context) :=
  match m with
  | [] => []
  | (k', c) :: rest =>
    if k' = k then (k', { c with inst := v }) :: setSlotList rest k v
    else (k', c) :: setSlotList rest k v

/-- Overwrite the `instance` slot of the context registered at `k`
(the assignment `self.instance = ...`). -/
def setSlot (s : BState) (k : Ty) (v : InstanceSlot) : BState :=
  { s with registrations := setSlotList s.registrations k v }

/-- Embeds `Context.resolve` for the context registered at `k`:
`self._instance(builder, **kwargs) or self._create(builder, **kwargs)`.
A `DelayedCreation` slot builds now and caches; then the Python `or` falls
through to a second `_create` whenever the value `_instance` produced is
falsy. -/
def contextResolveAux (W : World) (recur : BState → Ty → Kw → Except Err (Obj × BState))
    (s : BState) (k : Ty) (kw : Kw) : Except Err (Obj × BState) :=
  match lookupAssoc s.registrations k with
  | none => .error (.resolution k)
  | some c =>
    match c.inst with
    | .delayed =>
      match createAux W recur s k kw with
      | .error e => .error e
      | .ok (o, sA) =>
        let s1 := setSlot sA k (.conc o)
        if o.truthy then .ok (o, s1) else createAux W recur s1 k kw
    | .conc o => if o.truthy then .ok (o, s) else createAux W recur s k kw
    | .none => createAux W recur s k kw

/-- Embeds `Builder.resolve`, with fuel bounding the nesting depth of recursive
resolutions: follow the alias map, look the concrete key up in the registry
(`ResolutionError` naming the requested type when absent), and delegate to
the context. -/
def builderResolve (W : World) : Nat → BState → Ty → Kw → Except Err (Obj × BState)
  | 0, _, _, _ => .error .outOfFuel
  | n + 1, s, cls, kw =>
    match aliasRootF s cls with
    | none => .error .outOfFuel
    | some rt =>
      match lookupAssoc s.registrations rt with
      | none => .error (.resolution cls)
      | some _ => contextResolveAux W (builderResolve W n) s rt kw

/-- Embeds `Context.resolve` at a given fuel level: nested `builder.resolve` calls
run at one level less. -/
def contextResolve (W : World) (fuel : Nat) (s : BState) (k : Ty) (kw : Kw) :
    Except Err (Obj × BState) :=
  match fuel with
  | 0 => .error .outOfFuel
  | n + 1 => contextResolveAux W (builderResolve W n) s k kw

/-- Embeds `Context._create` at a given fuel level. -/
def create (W : World) (fuel : Nat) (s : BState) (k : Ty) (kw : Kw) :
    Except Err (Obj × BState) :=
  match fuel with
  | 0 => .error .outOfFuel
  | n + 1 => createAux W (builderResolve W n) s k kw

/-- Runs `m` successive `Context.resolve` calls on the same key with the same
per-call arguments, collecting the returned objects. -/
def repeatCtxResolve (W : World) (fuel : Nat) : Nat → BState → Ty → Kw →
    Except Err (List Obj × BState)
  | 0, s, _, _ => .ok ([], s)
  | m + 1, s, k, kw =>
    match contextResolve W fuel s k kw with
    | .error e => .error e
    | .ok (o, s') =>
      match repeatCtxResolve W fuel m s' k kw with
      | .error e => .error e
      | .ok (os, s'') => .ok (o :: os, s'')

/-- Builder states reachable from a fresh builder by `register` calls
(failed calls return the state unchanged, so both outcomes are covered). -/
inductive Reachable : BState → Prop where
  | empty : Reachable emptyBuilder
  | step (s : BState) (cls : Ty) (al : Option Ty) (inst : InstanceSlot)
      (fac : Option Fn) (kw : Kw) :
      Reachable s → Reachable (register s cls al inst fac kw).2

/-- The relation `AliasReaches al t r`: following the alias map from `t` terminates at
root `r` (exactly the call graph of `Builder._resolve_alias`). -/
inductive AliasReaches (al : List (Ty × Ty)) : Ty → Ty → Prop where
  | root (t : Ty) : lookupAssoc al t = none → AliasReaches al t t
  | step (t v r : Ty) : lookupAssoc al t = some v → AliasReaches al v r → AliasReaches al t r

/-- The registration keys of a builder state. -/
def regKeys (s : BState) : List Ty := s.registrations.map Prod.fst

/-- The alias keys of a builder state. -/
def aliasKeys (s : BState) : List Ty := s.aliases.map Prod.fst

/-- Occurrences of key `k` in an invocation log. -/
def countK (k : Ty) (l : List Ty) : Nat := l.countP (fun x => decide (x = k))

/-- Whether `register` failed and the error is one of the registration-time
validation errors. -/
def failsWithValidation (r : Except Err Unit × BState) : Bool :=
  match r.1 with
  | .error e => e.isValidationErr
  | .ok _ => false

/-- Whether `register` failed with a `RegistrationError`. -/
def failsWithRegistration (r : Except Err Unit × BState) : Bool :=
  match r.1 with
  | .error e => e.isRegErr
  | .ok _ => false

/-- The object a resolution produced, if it succeeded. -/
def resolvedObj (r : Except Err (Obj × BState)) : Option Obj :=
  match r with
  | .ok (o, _) => some o
  | .error _ => none

/-! Concrete types, objects, callables and builder states used to evaluate
the theorems on explicit inputs. -/

/-- A dependency type with a no-argument constructor. -/
def tyE : Ty := ⟨10, [10]⟩

/-- A type whose constructor takes four parameters, subclass of `tyAl`. -/
def tyW : Ty := ⟨11, [11, 12]⟩

/-- An abstract alias type for `tyW`. -/
def tyAl : Ty := ⟨12, [12]⟩

/-- The type registered with itself as its own alias. -/
def tyX : Ty := ⟨13, [13]⟩

/-- A type registered with deferred creation and a factory whose product is
falsy. -/
def tyA : Ty := ⟨14, [14]⟩

/-- A type registered with a falsy concrete instance. -/
def tyB : Ty := ⟨15, [15]⟩

/-- A type whose constructor result depends on the keyword argument `x`. -/
def tyC : Ty := ⟨16, [16]⟩

/-- A type registered with deferred creation and a factory whose product is
truthy. -/
def tyD : Ty := ⟨17, [17]⟩

/-- A type registered with a truthy concrete instance. -/
def tyT : Ty := ⟨18, [18]⟩

/-- A type unrelated to `tyB`, for the instance-type mismatch. -/
def tyOther : Ty := ⟨19, [19]⟩

def objE : Obj := ⟨7, tyE, true⟩
def objA : Obj := ⟨1, tyW, true⟩
def objB : Obj := ⟨2, tyW, true⟩
def objC : Obj := ⟨3, tyW, true⟩
def objW : Obj := ⟨50, tyW, true⟩
def objX : Obj := ⟨4, tyX, true⟩
def objFalsyA : Obj := ⟨5, tyA, false⟩
def objF3 : Obj := ⟨6, tyB, false⟩
def objBuilt3 : Obj := ⟨8, tyB, true⟩
def objF4 : Obj := ⟨9, tyOther, false⟩
def objF9 : Obj := ⟨20, tyC, false⟩
def objP : Obj := ⟨21, tyC, true⟩
def objQ : Obj := ⟨22, tyC, true⟩
def objXDef : Obj := ⟨23, tyC, true⟩
def objD : Obj := ⟨30, tyD, true⟩
def objT : Obj := ⟨31, tyT, true⟩
def objZ : Obj := ⟨32, tyB, true⟩

/-- Initializer of `tyE`: only `self`, always builds `objE`. -/
def fnE : Fn := ⟨[⟨"self", tyE, none⟩], none, fun _ => objE⟩

/-- Initializer of `tyW`: `self` plus parameters `a`, `b`, `c` (with default
`objC`) and `d` (no default, annotated `tyE`). -/
def fnW : Fn :=
  ⟨[⟨"self", tyW, none⟩, ⟨"a", tyE, none⟩, ⟨"b", tyE, none⟩,
    ⟨"c", tyE, some objC⟩, ⟨"d", tyE, none⟩], none, fun _ => objW⟩

/-- Initializer of `tyB`: only `self`, always builds a fresh `objBuilt3`. -/
def fnB : Fn := ⟨[⟨"self", tyB, none⟩], none, fun _ => objBuilt3⟩

/-- Initializer of `tyC`: `self` plus `x` with default `objXDef`; the
product's identity depends on the value bound to `x`. -/
def fnC : Fn :=
  ⟨[⟨"self", tyC, none⟩, ⟨"x", tyC, some objXDef⟩], none,
   fun kw =>
     match lookupAssoc kw "x" with
     | some v => ⟨100 + v.oid, tyC, true⟩
     | none => ⟨999, tyC, true⟩⟩

/-- A default initializer for the remaining types. -/
def fnDef : Fn := ⟨[], none, fun _ => ⟨0, tyE, true⟩⟩

/-- Factory for `tyA`: no parameters, declared to return `tyA`, and its
product `objFalsyA` is falsy. -/
def fnFalsy : Fn := ⟨[], some tyA, fun _ => objFalsyA⟩

/-- Factory for `tyD`: no parameters, declared to return `tyD`, truthy
product `objD`. -/
def fnD : Fn := ⟨[], some tyD, fun _ => objD⟩

/-- Factory declared to return `tyB`, used alongside a falsy instance. -/
def fnB4 : Fn := ⟨[], some tyB, fun _ => objZ⟩

/-- The class environment tying each concrete type to its initializer. -/
def Wc : World :=
  ⟨fun t =>
    if t.id = 10 then fnE
    else if t.id = 11 then fnW
    else if t.id = 15 then fnB
    else if t.id = 16 then fnC
    else fnDef⟩

/-- State with `tyE` registered on a fresh builder. -/
def s1 : BState := (register emptyBuilder tyE none .none none []).2

/-- State `s1` with `tyW` registered with the registration-time argument `b`. -/
def sW : BState := (register s1 tyW none .none none [("b", objB)]).2

/-- The context stored for `tyW` in `sW`. -/
def ctxW : Context := ⟨tyW, [], [("b", objB)], .none, none⟩

/-- The per-call arguments of the `C1` evaluation. -/
def kwA : Kw := [("a", objA)]

/-- The object the `C1` evaluation produces. -/
def c1Obj : Obj := objW

/-- The state after the `C1` evaluation: the dependency `tyE` was built,
then `tyW` itself. -/
def c1St : BState := { sW with log := [tyE, tyW] }

/-- State `s1` with `tyW` registered under the alias `tyAl`. -/
def sW6 : BState := (register s1 tyW (some tyAl) .none none []).2

/-- State with `tyX` registered with itself as alias: the validation of
`Builder._validate` admits it because `tyX` is in neither map yet, leaving
`aliases[tyX] = tyX`. -/
def sLoop : BState := (register emptyBuilder tyX (some tyX) (.conc objX) none []).2

/-- The context stored for `tyX` in `sLoop`. -/
def ctxX : Context := ⟨tyX, [tyX], [], .conc objX, none⟩

/-- State with `tyA` registered with deferred creation and the falsy-product factory. -/
def sC2 : BState := (register emptyBuilder tyA none .delayed (some fnFalsy) []).2

/-- The state reached by two successive `Context.resolve` calls on `tyA`
from `sC2`. -/
def c2Final : BState :=
  match contextResolve Wc 3 sC2 tyA [] with
  | .ok (_, sx) =>
    match contextResolve Wc 3 sx tyA [] with
    | .ok (_, sy) => sy
    | .error _ => sx
  | .error _ => sC2

/-- State with `tyD` registered with deferred creation and the truthy-product factory. -/
def sD : BState := (register emptyBuilder tyD none .delayed (some fnD) []).2

/-- The context stored for `tyD` in `sD`. -/
def ctxD : Context := ⟨tyD, [], [], .delayed, some fnD⟩

/-- The state after the first (and only) build of `tyD`. -/
def sDlog : BState := { sD with log := [tyD] }

/-- State `sDlog` with the built object cached in the slot of `tyD`. -/
def sDcached : BState := setSlot sDlog tyD (.conc objD)

/-- State with `tyB` registered with the falsy concrete instance `objF3`. -/
def sC3 : BState := (register emptyBuilder tyB none (.conc objF3) none []).2

/-- State with `tyC` registered with the falsy concrete instance `objF9`. -/
def sC9 : BState := (register emptyBuilder tyC none (.conc objF9) none []).2

/-- State with `tyT` registered with the truthy concrete instance `objT`. -/
def sT : BState := (register emptyBuilder tyT none (.conc objT) none []).2

/-- The context stored for `tyT` in `sT`. -/
def ctxT : Context := ⟨tyT, [], [], .conc objT, none⟩

/-! Association-list lemmas. -/

theorem lookupAssoc_setAssoc_self {α β : Type} [DecidableEq α] (m : List (α × β)) (k : α) (v : β) :
    lookupAssoc (setAssoc m k v) k = some v := by
  induction m with
  | nil => simp [setAssoc, lookupAssoc]
  | cons hd tl ih =>
    obtain ⟨a, b⟩ := hd
    by_cases h : a = k
    · simp [setAssoc, h, lookupAssoc]
    · simp [setAssoc, h, lookupAssoc, ih]

theorem lookupAssoc_setAssoc_ne {α β : Type} [DecidableEq α] (m : List (α × β)) (k k' : α) (v : β)
    (h : k' ≠ k) : lookupAssoc (setAssoc m k v) k' = lookupAssoc m k' := by
  induction m with
  | nil => simp [setAssoc, lookupAssoc, Ne.symm h]
  | cons hd tl ih =>
    obtain ⟨a, b⟩ := hd
    by_cases hk : a = k
    · subst hk
      simp [setAssoc, lookupAssoc, Ne.symm h]
    · simp [setAssoc, hk, lookupAssoc, ih]

theorem lookupAssoc_isSome_iff {α β : Type} [DecidableEq α] (m : List (α × β)) (k : α) :
    (lookupAssoc m k).isSome ↔ k ∈ m.map Prod.fst := by
  induction m with
  | nil => simp [lookupAssoc]
  | cons hd tl ih =>
    obtain ⟨a, b⟩ := hd
    by_cases h : a = k
    · simp [lookupAssoc, h]
    · simp [lookupAssoc, h, ih, Ne.symm h]

/-! `setSlot` lemmas. -/

theorem setSlot_log (s : BState) (k : Ty) (v : InstanceSlot) : (setSlot s k v).log = s.log := rfl

theorem setSlot_aliases (s : BState) (k : Ty) (v : InstanceSlot) :
    (setSlot s k v).aliases = s.aliases := rfl

theorem setSlotList_keys (m : List (Ty × Context)) (k : Ty) (v : InstanceSlot) :
    (setSlotList m k v).map Prod.fst = m.map Prod.fst := by
  induction m with
  | nil => rfl
  | cons hd tl ih =>
    obtain ⟨a, c⟩ := hd
    by_cases h : a = k <;> simp [setSlotList, h, ih]

theorem regKeys_setSlot (s : BState) (k : Ty) (v : InstanceSlot) :
    regKeys (setSlot s k v) = regKeys s := by
  simpa [regKeys, setSlot] using setSlotList_keys s.registrations k v

theorem lookupAssoc_setSlotList (m : List (Ty × Context)) (k x : Ty) (v : InstanceSlot) :
    lookupAssoc (setSlotList m k v) x =
      if x = k then (lookupAssoc m k).map (fun c => { c with inst := v })
      else lookupAssoc m x := by
  induction m with
  | nil => by_cases h : x = k <;> simp [setSlotList, lookupAssoc, h]
  | cons hd tl ih =>
    obtain ⟨a, c⟩ := hd
    by_cases hak : a = k
    · subst hak
      by_cases hx : x = a
      · subst hx
        simp [setSlotList, lookupAssoc]
      · have hax : ¬ a = x := fun hh => hx hh.symm
        simp [setSlotList, lookupAssoc, hx, hax, ih]
    · by_cases hax : a = x
      · subst hax
        have hxk : ¬ a = k := hak
        simp [setSlotList, lookupAssoc, hxk]
      · simp [setSlotList, lookupAssoc, hak, hax, ih]

theorem lookupAssoc_setSlot (s : BState) (k x : Ty) (v : InstanceSlot) :
    lookupAssoc (setSlot s k v).registrations x =
      if x = k then (lookupAssoc s.registrations k).map (fun c => { c with inst := v })
      else lookupAssoc s.registrations x := by
  simpa [setSlot] using lookupAssoc_setSlotList s.registrations k x v

/-! Resolution preserves the set of registered keys (resolution only rewrites
`instance` slots and the log; it never adds or removes registrations). -/

theorem resolveLoopAux_keys (recur : BState → Ty → Kw → Except Err (Obj × BState))
    (hr : ∀ s t kw o s', recur s t kw = .ok (o, s') → regKeys s' = regKeys s) :
    ∀ (ps : List Param) (s : BState) (kw regKw acc rkw : Kw) (s₁ : BState),
      resolveLoopAux recur ps s kw regKw acc = .ok (rkw, s₁) → regKeys s₁ = regKeys s := by
  intro ps
  induction ps with
  | nil =>
    intro s kw regKw acc rkw s₁ h
    simp [resolveLoopAux] at h
    rw [h.2]
  | cons p ps ih =>
    intro s kw regKw acc rkw s₁ h
    simp only [resolveLoopAux] at h
    cases hkw : lookupAssoc kw p.name with
    | some v => rw [hkw] at h; exact ih s kw regKw _ rkw s₁ h
    | none =>
      rw [hkw] at h
      cases hreg : lookupAssoc regKw p.name with
      | some v => rw [hreg] at h; exact ih s kw regKw _ rkw s₁ h
      | none =>
        rw [hreg] at h
        cases hd : p.default with
        | some d => rw [hd] at h; exact ih s kw regKw _ rkw s₁ h
        | none =>
          rw [hd] at h
          cases hrec : recur s p.annotation [] with
          | error e => rw [hrec] at h; exact absurd h (by simp)
          | ok vs =>
            rw [hrec] at h
            have h1 := ih vs.2 kw regKw _ rkw s₁ h
            rw [h1, hr s p.annotation [] vs.1 vs.2 (by rw [hrec])]

theorem createAux_keys (W : World) (recur : BState → Ty → Kw → Except Err (Obj × BState))
    (hr : ∀ s t kw o s', recur s t kw = .ok (o, s') → regKeys s' = regKeys s)
    (s : BState) (k : Ty) (kw : Kw) (o : Obj) (s' : BState)
    (h : createAux W recur s k kw = .ok (o, s')) : regKeys s' = regKeys s := by
  unfold createAux at h
  split at h
  · exact absurd h (by simp)
  · rename_i c hc
    split at h
    · exact absurd h (by simp)
    · rename_i rkw s1 hl
      have hk := resolveLoopAux_keys recur hr _ s kw c.kwargs c.kwargs rkw s1 hl
      split at h
      · cases h
        exact hk
      · cases h
        exact hk

theorem contextResolveAux_keys (W : World) (recur : BState → Ty → Kw → Except Err (Obj × BState))
    (hr : ∀ s t kw o s', recur s t kw = .ok (o, s') → regKeys s' = regKeys s)
    (s : BState) (k : Ty) (kw : Kw) (o : Obj) (s' : BState)
    (h : contextResolveAux W recur s k kw = .ok (o, s')) : regKeys s' = regKeys s := by
  unfold contextResolveAux at h
  split at h
  · exact absurd h (by simp)
  · rename_i c hc
    split at h
    · -- deferred-creation slot
      split at h
      · exact absurd h (by simp)
      · rename_i ob sA hcr
        have h1 := createAux_keys W recur hr s k kw ob sA hcr
        split at h
        · cases h
          rw [regKeys_setSlot]
          exact h1
        · have h2 := createAux_keys W recur hr _ k kw o s' h
          rw [h2, regKeys_setSlot]
          exact h1
    · -- concrete slot
      rename_i oc
      split at h
      · cases h
        rfl
      · exact createAux_keys W recur hr s k kw o s' h
    · -- empty slot
      exact createAux_keys W recur hr s k kw o s' h

theorem builderResolve_keys (W : World) :
    ∀ (n : Nat) (s : BState) (t : Ty) (kw : Kw) (o : Obj) (s' : BState),
      builderResolve W n s t kw = .ok (o, s') → regKeys s' = regKeys s := by
  intro n
  induction n with
  | zero => intro s t kw o s' h; exact absurd h (by simp [builderResolve])
  | succ n ih =>
    intro s t kw o s' h
    unfold builderResolve at h
    split at h
    · exact absurd h (by simp)
    · rename_i rt hrt
      split at h
      · exact absurd h (by simp)
      · rename_i c hc
        exact contextResolveAux_keys W (builderResolve W n)
          (fun s t kw o s' hh => ih s t kw o s' hh) s rt kw o s' h

theorem create_keys (W : World) (fuel : Nat) (s : BState) (k : Ty) (kw : Kw) (o : Obj)
    (s' : BState) (h : create W fuel s k kw = .ok (o, s')) : regKeys s' = regKeys s := by
  cases fuel with
  | zero => exact absurd h (by simp [create])
  | succ n =>
    exact createAux_keys W (builderResolve W n)
      (fun s t kw o s' hh => builderResolve_keys W n s t kw o s' hh) s k kw o s' h

/-! The argument-resolution loop: a binding made for a parameter survives the
rest of the loop, and every parameter ends up bound according to the
four-way precedence. -/

theorem resolveLoopAux_preserved (recur : BState → Ty → Kw → Except Err (Obj × BState)) :
    ∀ (ps : List Param) (s : BState) (kw regKw acc rkw : Kw) (s₁ : BState) (x : String),
      resolveLoopAux recur ps s kw regKw acc = .ok (rkw, s₁) →
      (∀ p ∈ ps, p.name ≠ x) →
      lookupAssoc rkw x = lookupAssoc acc x := by
  intro ps
  induction ps with
  | nil =>
    intro s kw regKw acc rkw s₁ x h hx
    simp [resolveLoopAux] at h
    rw [h.1]
  | cons p ps ih =>
    intro s kw regKw acc rkw s₁ x h hx
    have hpx : p.name ≠ x := hx p (by simp)
    have hx' : ∀ q ∈ ps, q.name ≠ x := fun q hq => hx q (by simp [hq])
    have hset : ∀ (v : Obj), lookupAssoc (setAssoc acc p.name v) x = lookupAssoc acc x :=
      fun v => lookupAssoc_setAssoc_ne acc p.name x v (fun hh => hpx hh.symm)
    unfold resolveLoopAux at h
    split at h
    · rename_i v hv
      rw [ih s kw regKw _ rkw s₁ x h hx', hset]
    · split at h
      · rename_i v hv
        rw [ih s kw regKw _ rkw s₁ x h hx', hset]
      · split at h
        · rename_i d hd
          rw [ih s kw regKw _ rkw s₁ x h hx', hset]
        · split at h
          · exact absurd h (by simp)
          · rename_i v s' hrec
            rw [ih s' kw regKw _ rkw s₁ x h hx', hset]

theorem resolveLoopAux_spec (recur : BState → Ty → Kw → Except Err (Obj × BState)) :
    ∀ (ps : List Param) (s : BState) (kw regKw acc rkw : Kw) (s₁ : BState),
      resolveLoopAux recur ps s kw regKw acc = .ok (rkw, s₁) →
      (ps.map Param.name).Nodup →
      ∀ p ∈ ps,
        (∀ v, lookupAssoc kw p.name = some v → lookupAssoc rkw p.name = some v) ∧
        (lookupAssoc kw p.name = none →
          ∀ v, lookupAssoc regKw p.name = some v → lookupAssoc rkw p.name = some v) ∧
        (lookupAssoc kw p.name = none → lookupAssoc regKw p.name = none →
          ∀ d, p.default = some d → lookupAssoc rkw p.name = some d) ∧
        (lookupAssoc kw p.name = none → lookupAssoc regKw p.name = none →
          p.default = none →
          ∃ s₂ s₃ v, recur s₂ p.annotation [] = .ok (v, s₃) ∧
            lookupAssoc rkw p.name = some v) := by
  intro ps
  induction ps with
  | nil => intro s kw regKw acc rkw s₁ h hnd p hp; exact absurd hp (by simp)
  | cons q ps ih =>
    intro s kw regKw acc rkw s₁ h hnd p hp
    have hndtl : (ps.map Param.name).Nodup := (List.nodup_cons.mp hnd).2
    rcases List.mem_cons.mp hp with hpq | hptl
    · -- `p` is the head: its binding is made now and survives the tail loop.
      subst hpq
      have hnotin : ∀ r ∈ ps, r.name ≠ p.name := by
        intro r hr hcon
        exact (List.nodup_cons.mp hnd).1 (hcon ▸ List.mem_map_of_mem Param.name hr)
      unfold resolveLoopAux at h
      split at h
      · rename_i v hv
        have := resolveLoopAux_preserved recur ps s kw regKw _ rkw s₁ p.name h hnotin
        rw [lookupAssoc_setAssoc_self] at this
        refine ⟨fun w hw => ?_, fun hn => absurd hv (by simp [hn]), fun hn => absurd hv (by simp [hn]),
          fun hn => absurd hv (by simp [hn])⟩
        rw [hw] at hv
        cases hv
        exact this
      · rename_i hkwnone
        split at h
        · rename_i v hv
          have := resolveLoopAux_preserved recur ps s kw regKw _ rkw s₁ p.name h hnotin
          rw [lookupAssoc_setAssoc_self] at this
          refine ⟨fun w hw => absurd hw (by simp [hkwnone]), fun _ w hw => ?_,
            fun _ hn => absurd hv (by simp [hn]), fun _ hn => absurd hv (by simp [hn])⟩
          rw [hw] at hv
          cases hv
          exact this
        · rename_i hregnone
          split at h
          · rename_i d hd
            have := resolveLoopAux_preserved recur ps s kw regKw _ rkw s₁ p.name h hnotin
            rw [lookupAssoc_setAssoc_self] at this
            refine ⟨fun w hw => absurd hw (by simp [hkwnone]),
              fun _ w hw => absurd hw (by simp [hregnone]), fun _ _ w hw => ?_,
              fun _ _ hn => absurd hd.symm (by simp [hn])⟩
            rw [hw] at hd
            cases hd
            exact this
          · rename_i hdefnone
            split at h
            · exact absurd h (by simp)
            · rename_i v s' hrec
              have := resolveLoopAux_preserved recur ps s' kw regKw _ rkw s₁ p.name h hnotin
              rw [lookupAssoc_setAssoc_self] at this
              exact ⟨fun w hw => absurd hw (by simp [hkwnone]),
                fun _ w hw => absurd hw (by simp [hregnone]),
                fun _ _ w hw => absurd hw (by simp [hdefnone]),
                fun _ _ _ => ⟨s, s', v, hrec, this⟩⟩
    · -- `p` is in the tail: apply the induction hypothesis to the tail call.
      unfold resolveLoopAux at h
      split at h
      · exact ih s kw regKw _ rkw s₁ h hndtl p hptl
      · split at h
        · exact ih s kw regKw _ rkw s₁ h hndtl p hptl
        · split at h
          · exact ih s kw regKw _ rkw s₁ h hndtl p hptl
          · split at h
            · exact absurd h (by simp)
            · rename_i v s' hrec
              exact ih s' kw regKw _ rkw s₁ h hndtl p hptl

/-! A cached truthy object short-circuits `Context.resolve`. -/

theorem contextResolve_conc_truthy (W : World) (fuel : Nat) (s : BState) (k : Ty) (kw : Kw)
    (c : Context) (o : Obj) (hfu : 1 ≤ fuel) (hc : lookupAssoc s.registrations k = some c)
    (hi : c.inst = .conc o) (ht : o.truthy = true) :
    contextResolve W fuel s k kw = .ok (o, s) := by
  cases fuel with
  | zero => exact absurd hfu (by simp)
  | succ n =>
    show contextResolveAux W (builderResolve W n) s k kw = .ok (o, s)
    unfold contextResolveAux
    rw [hc]
    simp only [hi, ht, if_true]

/-! Registration lemmas. -/

theorem mkContext_ok (cls : Ty) (al : Option Ty) (inst : InstanceSlot) (fac : Option Fn)
    (kw : Kw) (c : Context) (h : mkContext cls al inst fac kw = .ok c) :
    c = { typename := cls, aliases := al.toList, kwargs := kw, inst := inst, factory := fac } := by
  simp only [mkContext] at h
  split at h
  · exact absurd h (by simp)
  · split at h
    · exact absurd h (by simp)
    · split at h
      · exact absurd h (by simp)
      · cases h
        rfl

theorem bvalidate_ok (s : BState) (c : Context) (h : bvalidate s c = .ok ()) :
    lookupAssoc s.registrations c.typename = none ∧
      lookupAssoc s.aliases c.typename = none ∧
      ∀ a ∈ c.aliases, lookupAssoc s.aliases a = none ∧
        lookupAssoc s.registrations a = none := by
  unfold bvalidate at h
  split at h
  · exact absurd h (by simp)
  · rename_i hreg
    split at h
    · exact absurd h (by simp)
    · rename_i halias
      split at h
      · exact absurd h (by simp)
      · rename_i hfind
        refine ⟨Option.not_isSome_iff_eq_none.mp hreg, Option.not_isSome_iff_eq_none.mp halias, ?_⟩
        intro a ha
        have := List.find?_eq_none.mp hfind a ha
        simp only [Bool.or_eq_true, not_or] at this
        exact ⟨Option.not_isSome_iff_eq_none.mp (by simpa using this.1),
          Option.not_isSome_iff_eq_none.mp (by simpa using this.2)⟩

/-- The registry invariant maintained by `register`: every alias value is a
registered key, and an alias key maps either to itself (the self-alias
loophole) or to a key with no alias entry of its own. -/
theorem reachable_invariant (s : BState) (hs : Reachable s) :
    (∀ a t, lookupAssoc s.aliases a = some t → (lookupAssoc s.registrations t).isSome) ∧
      (∀ a t, lookupAssoc s.aliases a = some t →
        t = a ∨ lookupAssoc s.aliases t = none) := by
  induction hs with
  | empty => constructor <;> intro a t h <;> exact absurd h (by simp [emptyBuilder, lookupAssoc])
  | step s cls al inst fac kw hsr ih =>
    obtain ⟨ihA, ihB⟩ := ih
    unfold register
    split
    · exact ⟨ihA, ihB⟩
    · rename_i c hmk
      split
      · exact ⟨ihA, ihB⟩
      · rename_i u hbv
        have hc := mkContext_ok cls al inst fac kw c hmk
        obtain ⟨hv1, hv2, hv3⟩ := bvalidate_ok s c (by cases u; exact hbv)
        cases al with
        | none =>
          -- no alias added: the alias map is unchanged, `cls` joins the registry
          have hal : (bregister s c).aliases = s.aliases := by
            rw [hc]; rfl
          have hreg : (bregister s c).registrations = setAssoc s.registrations cls c := by
            rw [hc]; rfl
          constructor
          · intro a t h
            rw [hal] at h
            have := ihA a t h
            by_cases htc : t = cls
            · simp [hreg, htc, lookupAssoc_setAssoc_self]
            · rw [hreg, lookupAssoc_setAssoc_ne s.registrations cls t c htc]
              exact this
          · intro a t h
            rw [hal] at h
            rw [hal]
            exact ihB a t h
        | some b =>
          have hal : (bregister s c).aliases = setAssoc s.aliases b cls := by
            rw [hc]; rfl
          have hreg : (bregister s c).registrations = setAssoc s.registrations cls c := by
            rw [hc]; rfl
          have hbmem : b ∈ c.aliases := by rw [hc]; simp
          obtain ⟨hbal, hbreg⟩ := hv3 b hbmem
          have hclsty : c.typename = cls := by rw [hc]
          constructor
          · intro a t h
            rw [hal] at h
            by_cases hab : a = b
            · subst hab
              rw [lookupAssoc_setAssoc_self] at h
              cases h
              simp [hreg, lookupAssoc_setAssoc_self]
            · rw [lookupAssoc_setAssoc_ne s.aliases b a cls hab] at h
              have hold := ihA a t h
              by_cases htc : t = cls
              · simp [hreg, htc, lookupAssoc_setAssoc_self]
              · rw [hreg, lookupAssoc_setAssoc_ne s.registrations cls t c htc]
                exact hold
          · intro a t h
            rw [hal] at h
            by_cases hab : a = b
            · subst hab
              rw [lookupAssoc_setAssoc_self] at h
              have hct : cls = t := by injection h
              subst hct
              by_cases hca : cls = a
              · exact Or.inl hca
              · right
                rw [hal, lookupAssoc_setAssoc_ne s.aliases a cls cls hca]
                rw [← hclsty]
                exact hv2
            · rw [lookupAssoc_setAssoc_ne s.aliases b a cls hab] at h
              rcases ihB a t h with hta | htn
              · exact Or.inl hta
              · right
                have htb : t ≠ b := by
                  intro hh
                  subst hh
                  have := ihA a t h
                  rw [hbreg] at this
                  exact absurd this (by simp)
                rw [hal, lookupAssoc_setAssoc_ne s.aliases b t cls htb]
                exact htn

/-! Alias-chain lemmas. -/

theorem aliasRootF_root (s : BState) (t : Ty) (h : lookupAssoc s.aliases t = none) :
    aliasRootF s t = some t := by
  unfold aliasRootF
  cases hl : s.aliases.length with
  | zero => simp [resolveAlias, h]
  | succ n => simp [resolveAlias, h]

theorem aliasRootF_one (s : BState) (t v : Ty) (h : lookupAssoc s.aliases t = some v)
    (hv : lookupAssoc s.aliases v = none) : aliasRootF s t = some v := by
  unfold aliasRootF
  cases hal : s.aliases with
  | nil => rw [hal] at h; exact absurd h (by simp [lookupAssoc])
  | cons hd tl =>
    rw [← hal]
    have : s.aliases.length = tl.length + 1 := by rw [hal]; rfl
    rw [this]
    show (match lookupAssoc s.aliases t with
      | some w => resolveAlias s.aliases tl.length w
      | none => some t) = some v
    rw [h]
    cases tl.length with
    | zero => simp [resolveAlias, hv]
    | succ m => simp [resolveAlias, hv]

/-- C1: for every registration whose construction source is a factory or the
type's own constructor (no instance supplied), the build step resolves each
declared parameter of the trimmed signature — in declaration order — by the
precedence: per-call argument, else registration-time partial argument, else
the parameter's declared default, else a recursive `Builder.resolve` on the
parameter's declared type; the factory (if present, else the type's own
initializer) is then invoked on the resolved argument set. -/
theorem C1_param_precedence (W : World) (n : Nat) (s : BState) (k : Ty) (kw : Kw)
    (c : Context) (o : Obj) (s' : BState)
    (hc : lookupAssoc s.registrations k = some c)
    (hslot : c.inst = InstanceSlot.none)
    (hnodup : ((trimmedSig W.ctor c).map Param.name).Nodup)
    (hres : contextResolve W (n + 1) s k kw = .ok (o, s')) :
    ∃ rkw s₁,
      resolveLoopAux (builderResolve W n) (trimmedSig W.ctor c) s kw c.kwargs c.kwargs =
        .ok (rkw, s₁) ∧
      o = (match c.factory with
           | some f => f.run rkw
           | none => (W.ctor c.typename).run rkw) ∧
      s' = { s₁ with log := s₁.log ++ [k] } ∧
      ∀ p ∈ trimmedSig W.ctor c,
        (∀ v, lookupAssoc kw p.name = some v → lookupAssoc rkw p.name = some v) ∧
        (lookupAssoc kw p.name = none →
          ∀ v, lookupAssoc c.kwargs p.name = some v → lookupAssoc rkw p.name = some v) ∧
        (lookupAssoc kw p.name = none → lookupAssoc c.kwargs p.name = none →
          ∀ d, p.default = some d → lookupAssoc rkw p.name = some d) ∧
        (lookupAssoc kw p.name = none → lookupAssoc c.kwargs p.name = none →
          p.default = none →
          ∃ s₂ s₃ v, builderResolve W n s₂ p.annotation [] = .ok (v, s₃) ∧
            lookupAssoc rkw p.name = some v) := by
  have h0 : contextResolveAux W (builderResolve W n) s k kw = .ok (o, s') := hres
  unfold contextResolveAux at h0
  split at h0
  · exact absurd h0 (by simp)
  · rename_i c2 hc2
    rw [hc] at hc2
    injection hc2 with he
    subst he
    split at h0
    · rename_i heq
      rw [hslot] at heq
      exact InstanceSlot.noConfusion heq
    · rename_i oc heq
      rw [hslot] at heq
      exact InstanceSlot.noConfusion heq
    · -- the empty slot falls through to `_create`
      unfold createAux at h0
      split at h0
      · rename_i hnone
        rw [hc] at hnone
        exact absurd hnone (by simp)
      · rename_i c3 hc3
        rw [hc] at hc3
        injection hc3 with he3
        subst he3
        split at h0
        · exact absurd h0 (by simp)
        · rename_i rkw s₁ hloop
          have hspec := resolveLoopAux_spec (builderResolve W n) (trimmedSig W.ctor c) s kw
            c.kwargs c.kwargs rkw s₁ hloop hnodup
          split at h0
          · rename_i f hf
            injection h0 with hpair
            injection hpair with ho hs
            subst ho
            subst hs
            exact ⟨rkw, s₁, hloop, rfl, rfl, hspec⟩
          · rename_i hf
            injection h0 with hpair
            injection hpair with ho hs
            subst ho
            subst hs
            exact ⟨rkw, s₁, hloop, rfl, rfl, hspec⟩

/-- C1, evaluated: on `sW` the context of `tyW` has no instance, its trimmed
signature has distinct parameter names, the resolution succeeds, and the
resolved arguments follow the four-way precedence. -/
theorem C1_param_precedence_witness :
    lookupAssoc sW.registrations tyW = some ctxW ∧
    ctxW.inst = InstanceSlot.none ∧
    ((trimmedSig Wc.ctor ctxW).map Param.name).Nodup ∧
    contextResolve Wc 3 sW tyW kwA = .ok (c1Obj, c1St) ∧
    ∃ rkw s₁,
      resolveLoopAux (builderResolve Wc 2) (trimmedSig Wc.ctor ctxW) sW kwA ctxW.kwargs
        ctxW.kwargs = .ok (rkw, s₁) ∧
      c1Obj = (match ctxW.factory with
               | some f => f.run rkw
               | none => (Wc.ctor ctxW.typename).run rkw) ∧
      c1St = { s₁ with log := s₁.log ++ [tyW] } ∧
      ∀ p ∈ trimmedSig Wc.ctor ctxW,
        (∀ v, lookupAssoc kwA p.name = some v → lookupAssoc rkw p.name = some v) ∧
        (lookupAssoc kwA p.name = none →
          ∀ v, lookupAssoc ctxW.kwargs p.name = some v → lookupAssoc rkw p.name = some v) ∧
        (lookupAssoc kwA p.name = none → lookupAssoc ctxW.kwargs p.name = none →
          ∀ d, p.default = some d → lookupAssoc rkw p.name = some d) ∧
        (lookupAssoc kwA p.name = none → lookupAssoc ctxW.kwargs p.name = none →
          p.default = none →
          ∃ s₂ s₃ v, builderResolve Wc 2 s₂ p.annotation [] = .ok (v, s₃) ∧
            lookupAssoc rkw p.name = some v) :=
  ⟨rfl, rfl, by decide, rfl,
   C1_param_precedence Wc 2 sW tyW kwA ctxW c1Obj c1St rfl rfl (by decide) rfl⟩

/-! Further shared helpers: repeated resolution on a cached truthy slot,
the case analysis of `register`, and reachability of the concrete states. -/

theorem repeatCtxResolve_conc_truthy (W : World) (fuel : Nat) (s : BState) (k : Ty) (kw : Kw)
    (c : Context) (o : Obj) (hfu : 1 ≤ fuel) (hc : lookupAssoc s.registrations k = some c)
    (hi : c.inst = .conc o) (ht : o.truthy = true) :
    ∀ m, repeatCtxResolve W fuel m s k kw = .ok (List.replicate m o, s) := by
  intro m
  induction m with
  | zero => rfl
  | succ m ih =>
    have h1 := contextResolve_conc_truthy W fuel s k kw c o hfu hc hi ht
    simp only [repeatCtxResolve, h1, ih, List.replicate]

theorem register_cases (s : BState) (cls : Ty) (al : Option Ty) (inst : InstanceSlot)
    (fac : Option Fn) (kw : Kw) :
    (∃ e, mkContext cls al inst fac kw = .error e ∧
      register s cls al inst fac kw = (.error e, s)) ∨
    (∃ c, mkContext cls al inst fac kw = .ok c ∧
      ((∃ e, bvalidate s c = .error e ∧ register s cls al inst fac kw = (.error e, s)) ∨
       (bvalidate s c = .ok () ∧
        register s cls al inst fac kw = (.ok (), bregister s c)))) := by
  cases hmk : mkContext cls al inst fac kw with
  | error e => exact Or.inl ⟨e, rfl, by unfold register; simp only [hmk]⟩
  | ok c =>
    refine Or.inr ⟨c, rfl, ?_⟩
    cases hbv : bvalidate s c with
    | error e => exact Or.inl ⟨e, rfl, by unfold register; simp only [hmk, hbv]⟩
    | ok u =>
      cases u
      exact Or.inr ⟨rfl, by unfold register; simp only [hmk, hbv]⟩

theorem reachable_s1 : Reachable s1 :=
  Reachable.step emptyBuilder tyE none .none none [] Reachable.empty

theorem reachable_sW6 : Reachable sW6 :=
  Reachable.step s1 tyW (some tyAl) .none none [] reachable_s1

/-- C2 counterexample: `tyA` is registered with the deferred-creation marker
and a factory whose product `objFalsyA` is falsy.  Both resolve calls
succeed and return the built object, but across the two calls the factory
executes three times, not once: the Python `or` in `Context.resolve` falls
through to a second `_create` whenever the cached value is falsy. -/
theorem C2_counterexample :
    resolvedObj (contextResolve Wc 3 sC2 tyA []) = some objFalsyA ∧
    countK tyA c2Final.log = 3 ∧
    ¬ countK tyA c2Final.log = 1 :=
  ⟨rfl, rfl, by decide⟩

/-- C2 (amended): for a deferred-creation registration with a factory,
provided the object the build produces is truthy and the build did not
recursively construct the same type, the first `Context.resolve` call caches
the built object and any number of further `Context.resolve` calls (with any
per-call arguments) return that same object with the state — and so the
invocation log — unchanged: the factory executes exactly once across the
whole sequence. -/
theorem C2_amended (W : World) (n : Nat) (s : BState) (k : Ty) (kw : Kw) (c : Context)
    (f : Fn) (o : Obj) (sA : BState)
    (hc : lookupAssoc s.registrations k = some c)
    (hd : c.inst = .delayed)
    (hf : c.factory = some f)
    (hcr : create W (n + 1) s k kw = .ok (o, sA))
    (ht : o.truthy = true)
    (honce : countK k sA.log = countK k s.log + 1) :
    contextResolve W (n + 1) s k kw = .ok (o, setSlot sA k (.conc o)) ∧
    countK k (setSlot sA k (.conc o)).log = countK k s.log + 1 ∧
    ∀ (m fuel2 : Nat) (kw2 : Kw), 1 ≤ fuel2 →
      repeatCtxResolve W fuel2 m (setSlot sA k (.conc o)) k kw2 =
        .ok (List.replicate m o, setSlot sA k (.conc o)) := by
  have hcr' : createAux W (builderResolve W n) s k kw = .ok (o, sA) := hcr
  have hmain : contextResolveAux W (builderResolve W n) s k kw =
      .ok (o, setSlot sA k (.conc o)) := by
    unfold contextResolveAux
    rw [hc]
    simp only [hd, hcr', ht, if_true]
  refine ⟨hmain, ?_, ?_⟩
  · rw [setSlot_log]
    exact honce
  · have hkeys := createAux_keys W (builderResolve W n)
      (fun s t kw o s' hh => builderResolve_keys W n s t kw o s' hh) s k kw o sA hcr'
    have hmem : (lookupAssoc sA.registrations k).isSome := by
      rw [lookupAssoc_isSome_iff]
      have : regKeys sA = regKeys s := hkeys
      rw [show sA.registrations.map Prod.fst = regKeys sA from rfl, this]
      rw [show regKeys s = s.registrations.map Prod.fst from rfl]
      rw [← lookupAssoc_isSome_iff, hc]
      rfl
    obtain ⟨cA, hcA⟩ := Option.isSome_iff_exists.mp hmem
    have hslot : lookupAssoc (setSlot sA k (.conc o)).registrations k =
        some { cA with inst := .conc o } := by
      rw [lookupAssoc_setSlot]
      simp [hcA]
    intro m fuel2 kw2 hfu
    exact repeatCtxResolve_conc_truthy W fuel2 (setSlot sA k (.conc o)) k kw2
      { cA with inst := .conc o } o hfu hslot rfl ht m

/-- C2 (amended), evaluated: the deferred registration of `tyD` builds the
truthy `objD` once (one log entry), caches it, and two further resolve calls
both return `objD` without touching the state or the log. -/
theorem C2_amended_witness :
    lookupAssoc sD.registrations tyD = some ctxD ∧
    ctxD.inst = InstanceSlot.delayed ∧
    ctxD.factory = some fnD ∧
    create Wc 1 sD tyD [] = .ok (objD, sDlog) ∧
    objD.truthy = true ∧
    countK tyD sDlog.log = countK tyD sD.log + 1 ∧
    contextResolve Wc 1 sD tyD [] = .ok (objD, sDcached) ∧
    repeatCtxResolve Wc 1 2 sDcached tyD [] = .ok ([objD, objD], sDcached) := by
  have h := C2_amended Wc 0 sD tyD [] ctxD fnD objD sDlog rfl rfl rfl rfl rfl rfl
  exact ⟨rfl, rfl, rfl, rfl, rfl, rfl, h.1, h.2.2 2 1 [] (by decide)⟩

/-- C3 counterexample: `tyB` is registered with the concrete instance
`objF3`, yet resolution builds and returns the distinct fresh object
`objBuilt3`, because the falsy `objF3` makes `self._instance(...) or
self._create(...)` fall through to construction. -/
theorem C3_counterexample :
    (lookupAssoc sC3.registrations tyB).map Context.inst =
      some (InstanceSlot.conc objF3) ∧
    resolvedObj (contextResolve Wc 3 sC3 tyB []) = some objBuilt3 ∧
    objBuilt3 ≠ objF3 :=
  ⟨rfl, rfl, by decide⟩

/-- C3 (amended): for a registration holding a concrete instance, every
`Context.resolve` call with any per-call arguments returns exactly the stored
object (identical object, state unchanged) — provided the stored instance is
truthy; a falsy instance instead falls through to fresh construction. -/
theorem C3_amended (W : World) (fuel : Nat) (s : BState) (k : Ty) (kw : Kw) (c : Context)
    (o : Obj) (hfu : 1 ≤ fuel) (hc : lookupAssoc s.registrations k = some c)
    (hi : c.inst = .conc o) (ht : o.truthy = true) :
    contextResolve W fuel s k kw = .ok (o, s) :=
  contextResolve_conc_truthy W fuel s k kw c o hfu hc hi ht

/-- C3 (amended), evaluated on the truthy instance registration of `tyT`. -/
theorem C3_amended_witness :
    lookupAssoc sT.registrations tyT = some ctxT ∧
    ctxT.inst = InstanceSlot.conc objT ∧
    objT.truthy = true ∧
    contextResolve Wc 2 sT tyT [("y", objZ)] = .ok (objT, sT) :=
  ⟨rfl, rfl, rfl, C3_amended Wc 2 sT tyT [("y", objZ)] ctxT objT (by decide) rfl rfl rfl⟩

/-- C4 counterexample: a falsy concrete instance of the wrong type, combined
with both partial arguments and a factory, is accepted by registration
without any error: `_validate_instance` runs its checks only when
`self.instance` is truthy. -/
theorem C4_counterexample :
    isinstance objF4 tyB = false ∧
    (register emptyBuilder tyB none (.conc objF4) (some fnB4) [("z", objZ)]).1 = .ok () :=
  ⟨rfl, rfl⟩

/-- C4 (amended): for every truthy supplied concrete instance, registration
fails with a validation error whenever the instance is not an instance of
the registered type, whenever partial arguments accompany it, and whenever a
factory accompanies it.  (Falsy concrete instances skip this validation.) -/
theorem C4_amended (s : BState) (cls : Ty) (al : Option Ty) (o : Obj) (fac : Option Fn)
    (kw : Kw) (ht : o.truthy = true) :
    (isinstance o cls = false →
      failsWithValidation (register s cls al (.conc o) fac kw) = true) ∧
    (kw ≠ [] → failsWithValidation (register s cls al (.conc o) fac kw) = true) ∧
    (fac.isSome = true →
      failsWithValidation (register s cls al (.conc o) fac kw) = true) := by
  refine ⟨?_, ?_, ?_⟩
  · intro hmis
    unfold register mkContext
    simp [validate_instance, ht, hmis, failsWithValidation, Err.isValidationErr]
  · intro hkw
    unfold register mkContext
    cases hmis : isinstance o cls
    · simp [validate_instance, ht, hmis, failsWithValidation, Err.isValidationErr]
    · simp [validate_instance, ht, hmis, hkw, failsWithValidation, Err.isValidationErr]
  · intro hfac
    unfold register mkContext
    cases hmis : isinstance o cls
    · simp [validate_instance, ht, hmis, failsWithValidation, Err.isValidationErr]
    · cases kw with
      | nil => simp [validate_instance, ht, hmis, hfac, failsWithValidation, Err.isValidationErr]
      | cons hd tl =>
        simp [validate_instance, ht, hmis, failsWithValidation, Err.isValidationErr]

/-- C4 (amended), evaluated: the truthy `objZ` is not an instance of
`tyOther`, and registering it as one fails with a validation error. -/
theorem C4_amended_witness :
    objZ.truthy = true ∧ isinstance objZ tyOther = false ∧
    failsWithValidation (register emptyBuilder tyOther none (.conc objZ) none []) = true :=
  ⟨rfl, rfl, (C4_amended emptyBuilder tyOther none objZ none [] rfl).1 rfl⟩

/-- C5: registration is all-or-nothing.  On any failure the state is exactly
the pre-call state; and whenever the candidate context passes validation,
a duplicate type key (as registration or alias key) and an alias colliding
with an existing registration or alias key each make `register` fail with a
`RegistrationError`. -/
theorem C5_register_atomic (s : BState) (cls : Ty) (al : Option Ty) (inst : InstanceSlot)
    (fac : Option Fn) (kw : Kw) :
    (∀ e, (register s cls al inst fac kw).1 = .error e →
      (register s cls al inst fac kw).2 = s) ∧
    (∀ c, mkContext cls al inst fac kw = .ok c →
      (((lookupAssoc s.registrations cls).isSome ∨ (lookupAssoc s.aliases cls).isSome) →
        failsWithRegistration (register s cls al inst fac kw) = true) ∧
      (∀ a, al = some a →
        ((lookupAssoc s.aliases a).isSome ∨ (lookupAssoc s.registrations a).isSome) →
        failsWithRegistration (register s cls al inst fac kw) = true)) := by
  have hrc := register_cases s cls al inst fac kw
  constructor
  · intro e h
    rcases hrc with ⟨e1, hmk, hreg⟩ | ⟨c, hmk, ⟨e1, hbv, hreg⟩ | ⟨hbv, hreg⟩⟩
    · rw [hreg]
    · rw [hreg]
    · rw [hreg] at h
      exact absurd h (by simp)
  · intro c hmk
    have hcc := mkContext_ok cls al inst fac kw c hmk
    have hcty : c.typename = cls := by rw [hcc]
    rcases hrc with ⟨e1, hmk1, hreg⟩ | ⟨c1, hmk1, hrest⟩
    · rw [hmk] at hmk1
      exact absurd hmk1 (by simp)
    · rw [hmk] at hmk1
      injection hmk1 with hc1
      subst hc1
      have hdone : ∀ e, bvalidate s c = .error e → e.isRegErr = true →
          failsWithRegistration (register s cls al inst fac kw) = true := by
        intro e hbve hisreg
        rcases hrest with ⟨e2, hbv2, hreg⟩ | ⟨hbv2, hreg⟩
        · rw [hbve] at hbv2
          injection hbv2 with he2
          subst he2
          rw [hreg]
          simpa [failsWithRegistration] using hisreg
        · rw [hbve] at hbv2
          exact absurd hbv2 (by simp)
      constructor
      · intro hdup
        by_cases h1 : (lookupAssoc s.registrations cls).isSome
        · exact hdone (.alreadyRegistered cls)
            (by unfold bvalidate; rw [hcty]; simp [h1]) rfl
        · have h2 : (lookupAssoc s.aliases cls).isSome := by
            rcases hdup with hd | hd
            · exact absurd hd h1
            · exact hd
          exact hdone (.alreadyAlias cls)
            (by unfold bvalidate; rw [hcty]; simp [h1, h2]) rfl
      · intro a hala hdupa
        by_cases h1 : (lookupAssoc s.registrations cls).isSome
        · exact hdone (.alreadyRegistered cls)
            (by unfold bvalidate; rw [hcty]; simp [h1]) rfl
        · by_cases h2 : (lookupAssoc s.aliases cls).isSome
          · exact hdone (.alreadyAlias cls)
              (by unfold bvalidate; rw [hcty]; simp [h1, h2]) rfl
          · have hals : c.aliases = [a] := by rw [hcc, hala]; rfl
            have hpred : ((lookupAssoc s.aliases a).isSome ||
                (lookupAssoc s.registrations a).isSome) = true := by
              rcases hdupa with hd | hd <;> simp [hd]
            exact hdone (.aliasCollision a)
              (by unfold bvalidate; rw [hcty, hals]; simp [h1, h2, List.find?, hpred]) rfl

/-- C5, evaluated: re-registering `tyE` on `s1` fails with a
`RegistrationError` and leaves the state untouched. -/
theorem C5_register_atomic_witness :
    failsWithRegistration (register s1 tyE none .none none []) = true ∧
    (register s1 tyE none .none none []).2 = s1 :=
  ⟨((C5_register_atomic s1 tyE none .none none []).2
      { typename := tyE, aliases := [], kwargs := [], inst := .none, factory := none }
      rfl).1 (Or.inl rfl),
   (C5_register_atomic s1 tyE none .none none []).1 (.alreadyRegistered tyE) rfl⟩

/-- C6 counterexample: on `sLoop` (reached by the single successful call
`register(tyX, alias=tyX, instance=objX)`) the requested key `tyX` IS
registered, yet `Builder.resolve` neither raises a `ResolutionError` nor
delegates to `Context.resolve` (which would succeed): `_resolve_alias`
recurses forever on the self-referential alias entry. -/
theorem C6_counterexample :
    lookupAssoc sLoop.aliases tyX = some tyX ∧
    (lookupAssoc sLoop.registrations tyX).isSome = true ∧
    aliasRootF sLoop tyX = none ∧
    builderResolve Wc 5 sLoop tyX [] = .error .outOfFuel ∧
    contextResolve Wc 4 sLoop tyX [] = .ok (objX, sLoop) :=
  ⟨rfl, rfl, rfl, rfl, rfl⟩

/-- C6 (amended): for every reachable state and every requested key whose
alias entry is not a self-reference, alias resolution terminates at a root
`rt` (a key absent from the alias map resolves to itself); if `rt` has no
registration, `Builder.resolve` fails with a `ResolutionError` naming the
requested type, and otherwise it delegates to that registration's
`Context.resolve` with the same state and per-call arguments.  (A
self-aliased key instead makes `_resolve_alias` recurse forever.) -/
theorem C6_resolve_dispatch (W : World) (n : Nat) (s : BState) (cls : Ty) (kw : Kw)
    (hs : Reachable s) (hnl : lookupAssoc s.aliases cls ≠ some cls) :
    ∃ rt, aliasRootF s cls = some rt ∧
      AliasReaches s.aliases cls rt ∧
      (lookupAssoc s.aliases cls = none → rt = cls) ∧
      (lookupAssoc s.registrations rt = none →
        builderResolve W (n + 1) s cls kw = .error (.resolution cls)) ∧
      (∀ c, lookupAssoc s.registrations rt = some c →
        builderResolve W (n + 1) s cls kw = contextResolve W (n + 1) s rt kw) := by
  obtain ⟨invA, invB⟩ := reachable_invariant s hs
  cases hl : lookupAssoc s.aliases cls with
  | none =>
    have hroot := aliasRootF_root s cls hl
    refine ⟨cls, hroot, AliasReaches.root cls hl, fun _ => rfl, ?_, ?_⟩
    · intro hreg
      unfold builderResolve
      rw [hroot]
      simp only [hreg]
    · intro c hreg
      unfold builderResolve
      rw [hroot]
      simp only [hreg]
      rfl
  | some v =>
    have hvne : v ≠ cls := fun hh => hnl (by rw [hl, hh])
    have hvnone : lookupAssoc s.aliases v = none := by
      rcases invB cls v hl with hva | hvn
      · exact absurd hva hvne
      · exact hvn
    have hroot := aliasRootF_one s cls v hl hvnone
    refine ⟨v, hroot,
      AliasReaches.step cls v v hl (AliasReaches.root v hvnone), ?_, ?_, ?_⟩
    · intro hnone
      exact absurd hnone (by simp)
    · intro hreg
      unfold builderResolve
      rw [hroot]
      simp only [hreg]
    · intro c hreg
      unfold builderResolve
      rw [hroot]
      simp only [hreg]
      rfl

/-- C6 (amended), evaluated: resolving the alias `tyAl` on `sW6` follows the
alias map to `tyW` and delegates to its context. -/
theorem C6_resolve_dispatch_witness :
    lookupAssoc sW6.aliases tyAl ≠ some tyAl ∧
    ∃ rt, aliasRootF sW6 tyAl = some rt ∧
      AliasReaches sW6.aliases tyAl rt ∧
      (lookupAssoc sW6.aliases tyAl = none → rt = tyAl) ∧
      (lookupAssoc sW6.registrations rt = none →
        builderResolve Wc 3 sW6 tyAl [] = .error (.resolution tyAl)) ∧
      (∀ c, lookupAssoc sW6.registrations rt = some c →
        builderResolve Wc 3 sW6 tyAl [] = contextResolve Wc 3 sW6 rt []) :=
  ⟨by decide, C6_resolve_dispatch Wc 2 sW6 tyAl [] reachable_sW6 (by decide)⟩

/-- C7 counterexample: on `sLoop`, reached by one successful register call,
following the alias map from `tyX` never reaches any root: the
alias-resolution step of resolve does not terminate. -/
theorem C7_counterexample :
    lookupAssoc sLoop.aliases tyX = some tyX ∧
    ¬ ∃ r, AliasReaches sLoop.aliases tyX r := by
  refine ⟨rfl, ?_⟩
  rintro ⟨r, hr⟩
  have key : ∀ t r, AliasReaches sLoop.aliases t r → t ≠ tyX := by
    intro t r h
    induction h with
    | root t hroot =>
      intro hh
      subst hh
      have hx : lookupAssoc sLoop.aliases tyX = some tyX := by decide
      rw [hx] at hroot
      exact Option.noConfusion hroot
    | step t v r hstep hrest ih =>
      intro hh
      subst hh
      have hx : lookupAssoc sLoop.aliases tyX = some tyX := by decide
      rw [hx] at hstep
      injection hstep with hv
      exact ih hv.symm
  exact key tyX r hr rfl

/-- C7 (amended): in every reachable state, alias resolution terminates from
every key whose alias entry is not a self-reference: it reaches a root (a
key with no alias entry) in at most one step, and `_resolve_alias` computes
exactly that root.  Keys registered with themselves as alias (the one
loophole the registration checks admit) diverge instead. -/
theorem C7_alias_termination (s : BState) (t : Ty) (hs : Reachable s)
    (hnl : lookupAssoc s.aliases t ≠ some t) :
    ∃ r, AliasReaches s.aliases t r ∧ lookupAssoc s.aliases r = none ∧
      aliasRootF s t = some r := by
  obtain ⟨invA, invB⟩ := reachable_invariant s hs
  cases hl : lookupAssoc s.aliases t with
  | none => exact ⟨t, AliasReaches.root t hl, hl, aliasRootF_root s t hl⟩
  | some v =>
    have hvne : v ≠ t := fun hh => hnl (by rw [hl, hh])
    have hvnone : lookupAssoc s.aliases v = none := by
      rcases invB t v hl with hva | hvn
      · exact absurd hva hvne
      · exact hvn
    exact ⟨v, AliasReaches.step t v v hl (AliasReaches.root v hvnone), hvnone,
      aliasRootF_one s t v hl hvnone⟩

/-- C7 (amended), evaluated on the aliased registration of `sW6`. -/
theorem C7_alias_termination_witness :
    lookupAssoc sW6.aliases tyAl ≠ some tyAl ∧
    ∃ r, AliasReaches sW6.aliases tyAl r ∧ lookupAssoc sW6.aliases r = none ∧
      aliasRootF sW6 tyAl = some r :=
  ⟨by decide, C7_alias_termination sW6 tyAl reachable_sW6 (by decide)⟩

/-- C8: the membership test `cls in builder` is true exactly when `cls` is a
registered type key or a known alias key; it is a total boolean function of
the two maps, so it raises nothing for any input in any state. -/
theorem C8_contains_iff (s : BState) (cls : Ty) :
    bcontains s cls = true ↔ cls ∈ regKeys s ∨ cls ∈ aliasKeys s := by
  unfold bcontains regKeys aliasKeys
  simp [Bool.or_eq_true, lookupAssoc_isSome_iff]

/-- C9 counterexample: `tyC` is registered with the concrete (falsy)
instance `objF9`, yet two resolve calls that differ only in the per-call
argument `x` return different objects: call-time overrides do affect the
result of an instance-backed registration when the stored object is falsy. -/
theorem C9_counterexample :
    (lookupAssoc sC9.registrations tyC).map Context.inst =
      some (InstanceSlot.conc objF9) ∧
    resolvedObj (contextResolve Wc 3 sC9 tyC [("x", objP)]) ≠
      resolvedObj (contextResolve Wc 3 sC9 tyC [("x", objQ)]) :=
  ⟨rfl, by decide⟩

/-- C9 (amended): for a context whose slot holds a truthy concrete object,
`Context.resolve` returns that stored object for any per-call arguments, so
call-time overrides have no effect; a falsy stored object instead re-runs the
build step, where they do take effect. -/
theorem C9_amended (W : World) (fuel : Nat) (s : BState) (k : Ty) (kw kw2 : Kw)
    (c : Context) (o : Obj) (hfu : 1 ≤ fuel) (hc : lookupAssoc s.registrations k = some c)
    (hi : c.inst = .conc o) (ht : o.truthy = true) :
    contextResolve W fuel s k kw = contextResolve W fuel s k kw2 ∧
    contextResolve W fuel s k kw = .ok (o, s) := by
  have h1 := contextResolve_conc_truthy W fuel s k kw c o hfu hc hi ht
  have h2 := contextResolve_conc_truthy W fuel s k kw2 c o hfu hc hi ht
  exact ⟨h1.trans h2.symm, h1⟩

/-- C9 (amended), evaluated: two calls with different `x` overrides on the
truthy instance registration of `tyT` coincide and return the stored object. -/
theorem C9_amended_witness :
    lookupAssoc sT.registrations tyT = some ctxT ∧
    ctxT.inst = InstanceSlot.conc objT ∧
    objT.truthy = true ∧
    contextResolve Wc 2 sT tyT [("x", objP)] = contextResolve Wc 2 sT tyT [("x", objQ)] ∧
    contextResolve Wc 2 sT tyT [("x", objP)] = .ok (objT, sT) := by
  have h := C9_amended Wc 2 sT tyT [("x", objP)] [("x", objQ)] ctxT objT
    (by decide) rfl rfl rfl
  exact ⟨rfl, rfl, rfl, h.1, h.2⟩

/-- C10: in every state reachable from the empty builder by register calls
(successful or failed), every value of the alias map is a key of the
registration map: a successfully registered alias always resolves to a key
owning a context. -/
theorem C10_alias_values_registered (s : BState) (hs : Reachable s) (a t : Ty)
    (h : lookupAssoc s.aliases a = some t) :
    (lookupAssoc s.registrations t).isSome = true :=
  (reachable_invariant s hs).1 a t h

/-- C10, evaluated: in `sW6` the alias entry `tyAl → tyW` points at the
registered key `tyW`. -/
theorem C10_alias_values_registered_witness :
    lookupAssoc sW6.aliases tyAl = some tyW ∧
    (lookupAssoc sW6.registrations tyW).isSome = true :=
  ⟨rfl, C10_alias_values_registered sW6 reachable_sW6 tyAl tyW rfl⟩

end Patterns
